import Mathlib

/-!
Shallow embedding of `packages/troika-three-text/src/TextBuilder.js`:
the glyph-atlas management and SDF-generation orchestration core.

Numbers that the JavaScript source manipulates as floating point are
modelled as exact rationals (`ℚ`); every arithmetic fact proved below
involves only values at which the double-precision computation is exact.
Byte arrays (`Uint8Array`) are modelled as total functions `ℕ → ℕ`
together with an explicit length, and machine integers as `ℕ`.
-/

/-! ### Configuration registry (`CONFIG`, `configureTextBuilder`, `hasRequested`) -/

/-- The `CONFIG` object: `{defaultFontURL, sdfGlyphSize, sdfMargin, sdfExponent,
textureWidth}`.  The font URL is an opaque handle. -/
structure TBConfig where
  defaultFontURL : ℕ
  sdfGlyphSize : ℕ
  sdfMargin : ℚ
  sdfExponent : ℕ
  textureWidth : ℕ
  deriving DecidableEq

/-- A configuration argument object: each recognized field is optionally present,
mirroring a partial JS object passed to `configureTextBuilder`. -/
structure TBConfigPatch where
  defaultFontURL : Option ℕ
  sdfGlyphSize : Option ℕ
  sdfMargin : Option ℚ
  sdfExponent : Option ℕ
  textureWidth : Option ℕ

/-- The local `assign(toObj, fromObj)` helper: every own key of `fromObj`
overwrites the matching key of `toObj`. -/
def assignConfig (c : TBConfig) (p : TBConfigPatch) : TBConfig where
  defaultFontURL := p.defaultFontURL.getD c.defaultFontURL
  sdfGlyphSize := p.sdfGlyphSize.getD c.sdfGlyphSize
  sdfMargin := p.sdfMargin.getD c.sdfMargin
  sdfExponent := p.sdfExponent.getD c.sdfExponent
  textureWidth := p.textureWidth.getD c.textureWidth

/-- Module state relevant to configuration: the `CONFIG` object and the
`hasRequested` flag. -/
structure BuilderState where
  config : TBConfig
  hasRequested : Bool
  deriving DecidableEq

/-- `configureTextBuilder(config)`: if `hasRequested` is set, warn and ignore;
otherwise `assign(CONFIG, config)`.  The returned `Bool` records whether the
warning diagnostic was emitted. -/
def configureTextBuilder (st : BuilderState) (p : TBConfigPatch) : BuilderState × Bool :=
  if st.hasRequested then (st, true)
  else ({ st with config := assignConfig st.config p }, false)

/-- The first statement of `getTextRenderInfo`: `hasRequested = true`. -/
def beginRequest (st : BuilderState) : BuilderState :=
  { st with hasRequested := true }

/-! ### Glyph cache and slot allocation (`getTextRenderInfo`, lines 179-217) -/

/-- A `[minX, minY, maxX, maxY]` rectangle in font units. -/
structure Box where
  minX : ℚ
  minY : ℚ
  maxX : ℚ
  maxY : ℚ
  deriving DecidableEq

/-- Per-glyph data delivered by the typesetting collaborator:
`result.glyphData[glyphId] = {path, pathBounds}`.  The outline path is an
opaque handle. -/
structure GlyphData where
  path : ℕ
  pathBounds : Box

/-- The per-glyph record stored in `atlas.glyphs`:
`{ path, atlasIndex, sdfViewBox }`. -/
structure GlyphInfo where
  path : ℕ
  atlasIndex : ℕ
  sdfViewBox : Box
  deriving DecidableEq

/-- Atlas cache state: `count` (next free slot) and the `glyphs` map,
modelled as an insertion-ordered association list, as a JS `Map` is. -/
structure Atlas where
  count : ℕ
  glyphs : List (ℕ × GlyphInfo)
  deriving DecidableEq

/-- `atlas.glyphs.get(glyphId)`: first entry with the given key. -/
def glyphsGet (gid : ℕ) : List (ℕ × GlyphInfo) → Option GlyphInfo
  | [] => none
  | e :: rest => if gid = e.1 then some e.2 else glyphsGet gid rest

/-- Lines 189-190: `fontUnitsMargin = max(pathBounds[2]-pathBounds[0],
pathBounds[3]-pathBounds[1]) / sdfGlyphSize * (CONFIG.sdfMargin * sdfGlyphSize + 0.5)`. -/
def fontUnitsMargin (sdfMargin : ℚ) (sdfGlyphSize : ℕ) (pathBounds : Box) : ℚ :=
  max (pathBounds.maxX - pathBounds.minX) (pathBounds.maxY - pathBounds.minY)
    / (sdfGlyphSize : ℚ) * (sdfMargin * (sdfGlyphSize : ℚ) + 1/2)

/-- Lines 184-199 (miss branch): the new `glyphInfo = { path, atlasIndex, sdfViewBox }`,
with `sdfViewBox` the path bounds expanded by `fontUnitsMargin` on all sides. -/
def newGlyphInfo (sdfMargin : ℚ) (sdfGlyphSize : ℕ) (count : ℕ) (d : GlyphData) : GlyphInfo :=
  let m := fontUnitsMargin sdfMargin sdfGlyphSize d.pathBounds
  { path := d.path
    atlasIndex := count
    sdfViewBox :=
      { minX := d.pathBounds.minX - m
        minY := d.pathBounds.minY - m
        maxX := d.pathBounds.maxX + m
        maxY := d.pathBounds.maxY + m } }

/-- Lines 180-203: look a glyph up in the atlas; on a miss compute the margin
and view box, assign `atlasIndex = atlas.count++`, store the new entry, and
push it onto `neededSDFs`.  The `Bool` records whether a new SDF was queued. -/
def allocGlyph (sdfMargin : ℚ) (sdfGlyphSize : ℕ) (gd : ℕ → GlyphData)
    (atlas : Atlas) (gid : ℕ) : Atlas × GlyphInfo × Bool :=
  match glyphsGet gid atlas.glyphs with
  | some gi => (atlas, gi, false)
  | none =>
      let gi := newGlyphInfo sdfMargin sdfGlyphSize atlas.count (gd gid)
      ({ count := atlas.count + 1, glyphs := atlas.glyphs ++ [(gid, gi)] }, gi, true)

/-- Line 224: `maxDist = max(sdfViewBox[2]-sdfViewBox[0], sdfViewBox[3]-sdfViewBox[1])`,
the `maxDistance` argument passed to `generateSDFInWorker`. -/
def maxDist (vb : Box) : ℚ :=
  max (vb.maxX - vb.minX) (vb.maxY - vb.minY)

/-- The `glyphIds.forEach` loop (lines 179-217): thread the atlas through the
glyph sequence, collecting `neededSDFs`, the flat `glyphBounds` array
(four rationals per glyph) and the `glyphAtlasIndices` remapping.
Each element of the input list is `(glyphId, posX, posY)`. -/
def processGlyphs (sdfMargin : ℚ) (sdfGlyphSize : ℕ) (gd : ℕ → GlyphData) (fontSizeMult : ℚ) :
    Atlas → List (ℕ × ℚ × ℚ) → Atlas × List GlyphInfo × List ℚ × List ℕ
  | atlas, [] => (atlas, [], [], [])
  | atlas, e :: rest =>
      let r := allocGlyph sdfMargin sdfGlyphSize gd atlas e.1
      let gi := r.2.1
      let rec' := processGlyphs sdfMargin sdfGlyphSize gd fontSizeMult r.1 rest
      (rec'.1,
       (if r.2.2 then [gi] else []) ++ rec'.2.1,
       [e.2.1 + gi.sdfViewBox.minX * fontSizeMult,
        e.2.2 + gi.sdfViewBox.minY * fontSizeMult,
        e.2.1 + gi.sdfViewBox.maxX * fontSizeMult,
        e.2.2 + gi.sdfViewBox.maxY * fontSizeMult] ++ rec'.2.2.1,
       gi.atlasIndex :: rec'.2.2.2)

/-- A sequence of render requests processed against one shared atlas; the
second component accumulates every queued SDF task across the requests. -/
def runRequests (sdfMargin : ℚ) (sdfGlyphSize : ℕ) (gd : ℕ → GlyphData) (fontSizeMult : ℚ) :
    Atlas → List (List (ℕ × ℚ × ℚ)) → Atlas × List GlyphInfo
  | atlas, [] => (atlas, [])
  | atlas, req :: rest =>
      let r1 := processGlyphs sdfMargin sdfGlyphSize gd fontSizeMult atlas req
      let r2 := runRequests sdfMargin sdfGlyphSize gd fontSizeMult r1.1 rest
      (r2.1, r1.2.1 ++ r2.2)

/-- The typesetting collaborator's result fields used by the glyph loop. -/
structure TypesetResult where
  glyphIds : List ℕ
  glyphPositions : List (ℚ × ℚ)
  fontSize : ℚ
  unitsPerEm : ℚ
  glyphData : ℕ → GlyphData

/-- The fields of the frozen render-info result that the core itself computes. -/
structure RenderInfo where
  glyphBounds : List ℚ
  glyphAtlasIndices : List ℕ

/-- The `typesetInWorker(args).then(...)` body, up to result assembly: pair the
glyph ids with their pen positions, run the allocation loop, and package
`glyphBounds` / `glyphAtlasIndices` for the completion callback.  Returns the
updated atlas, the queued `neededSDFs`, and the callback payload. -/
def getTextRenderInfo (sdfMargin : ℚ) (sdfGlyphSize : ℕ) (atlas : Atlas)
    (res : TypesetResult) : Atlas × List GlyphInfo × RenderInfo :=
  let entries := res.glyphIds.zip res.glyphPositions
  let fontSizeMult := res.fontSize / res.unitsPerEm
  let r := processGlyphs sdfMargin sdfGlyphSize res.glyphData fontSizeMult atlas entries
  (r.1, r.2.1, { glyphBounds := r.2.2.1, glyphAtlasIndices := r.2.2.2 })

/-! ### Packed SDF texture (`atlas.sdfTexture.image`, lines 150-168 and 231-259) -/

/-- `texImg = atlas.sdfTexture.image`: a byte buffer with explicit length and
the texture's `width`/`height` in texels (four bytes per texel). -/
structure TexImage where
  dataLen : ℕ
  data : ℕ → ℕ
  width : ℕ
  height : ℕ

/-- Lines 154-165: `new DataTexture(new Uint8Array(sdfGlyphSize * textureWidth * 4),
textureWidth, sdfGlyphSize, ...)` — a zeroed buffer, `width = textureWidth`,
`height = sdfGlyphSize`. -/
def initTexImage (textureWidth sdfGlyphSize : ℕ) : TexImage where
  dataLen := sdfGlyphSize * textureWidth * 4
  data := fun _ => 0
  width := textureWidth
  height := sdfGlyphSize

/-- Lines 238-241, one iteration of the growth loop: allocate a zeroed buffer of
twice the length, copy the old bytes to the same offsets, double `height`. -/
def growOnce (t : TexImage) : TexImage where
  dataLen := t.dataLen * 2
  data := fun i => if i < t.dataLen then t.data i else 0
  width := t.width
  height := t.height * 2

/-- Line 237: `while (texImg.data.length < (atlasIndex + 1) * sdfGlyphSize * sdfGlyphSize)`
keep doubling.  The loop is fuel-indexed; any fuel making `dataLen * 2 ^ fuel`
reach the required size is enough. -/
def growToFit : ℕ → TexImage → ℕ → ℕ → TexImage
  | 0, t, _, _ => t
  | fuel + 1, t, atlasIndex, sdfGlyphSize =>
      if t.dataLen < (atlasIndex + 1) * sdfGlyphSize * sdfGlyphSize then
        growToFit fuel (growOnce t) atlasIndex sdfGlyphSize
      else t

/-- Lines 247-251: `squareIndex = floor(atlasIndex / 4)`, `cols = width / sdfGlyphSize`,
`baseStartIndex = floor(squareIndex / cols) * width * sdfGlyphSize * 4
+ (squareIndex % cols) * sdfGlyphSize * 4 + atlasIndex % 4`. -/
def baseStartIndex (width sdfGlyphSize atlasIndex : ℕ) : ℕ :=
  let squareIndex := atlasIndex / 4
  let cols := width / sdfGlyphSize
  squareIndex / cols * width * sdfGlyphSize * 4
    + squareIndex % cols * sdfGlyphSize * 4
    + atlasIndex % 4

/-- The byte address written for texel `(x, y)` of slot `atlasIndex`:
`baseStartIndex + y * width * 4 + x * 4` (lines 252-257). -/
def slotAddr (width sdfGlyphSize atlasIndex y x : ℕ) : ℕ :=
  baseStartIndex width sdfGlyphSize atlasIndex + y * width * 4 + x * 4

/-- A single store `data[i] = v` on the byte-buffer model. -/
def byteSet (f : ℕ → ℕ) (i v : ℕ) : ℕ → ℕ :=
  fun j => if j = i then v else f j

/-- The inner `for (x ...)` loop of lines 255-257 for one row `y`:
`data[rowStartIndex + x*4] = textureData[srcStartIndex + x]`. -/
def writeRow (width sdfGlyphSize base y : ℕ) (textureData : ℕ → ℕ)
    (data : ℕ → ℕ) : ℕ → ℕ :=
  (List.range sdfGlyphSize).foldl
    (fun d x => byteSet d (base + y * width * 4 + x * 4)
      (textureData (y * sdfGlyphSize + x))) data

/-- The nested copy loop of lines 252-258: all `sdfGlyphSize` rows of one slot. -/
def writeSlotPixels (width sdfGlyphSize atlasIndex : ℕ) (textureData : ℕ → ℕ)
    (data : ℕ → ℕ) : ℕ → ℕ :=
  (List.range sdfGlyphSize).foldl
    (fun d y => writeRow width sdfGlyphSize
      (baseStartIndex width sdfGlyphSize atlasIndex) y textureData d) data

/-- The whole per-result body of lines 233-258: grow the buffer if needed, then
copy the glyph's `sdfGlyphSize²` bytes into its packing address. -/
def writeSlot (fuel sdfGlyphSize : ℕ) (t : TexImage) (atlasIndex : ℕ)
    (textureData : ℕ → ℕ) : TexImage :=
  let t2 := growToFit fuel t atlasIndex sdfGlyphSize
  { t2 with data := writeSlotPixels t2.width sdfGlyphSize atlasIndex textureData t2.data }

/-- The `sdfResults.forEach` loop of lines 232-259: merge a list of
`(atlasIndex, textureData)` results into the texture. -/
def mergeSDFResults (fuel sdfGlyphSize : ℕ) (t : TexImage)
    (results : List (ℕ × (ℕ → ℕ))) : TexImage :=
  results.foldl (fun acc r => writeSlot fuel sdfGlyphSize acc r.1 r.2) t

/-- Observation function: the `sdfGlyphSize²` bytes of one slot, read back from
the buffer at the slot's packing addresses, in source order. -/
def readSlot (width sdfGlyphSize atlasIndex : ℕ) (data : ℕ → ℕ) : List ℕ :=
  (List.range (sdfGlyphSize * sdfGlyphSize)).map
    fun k => data (slotAddr width sdfGlyphSize atlasIndex
      (k / sdfGlyphSize) (k % sdfGlyphSize))

/-- The distinct glyph ids of a sequence, in first-seen order, relative to an
already-seen key list: the order in which the `forEach` loop creates entries. -/
def firstNew (seen : List ℕ) : List ℕ → List ℕ
  | [] => []
  | a :: l => if a ∈ seen then firstNew seen l else a :: firstNew (seen ++ [a]) l

/-! ### Glyph-cache lemmas -/

theorem glyphsGet_eq_none (gid : ℕ) :
    ∀ l : List (ℕ × GlyphInfo), glyphsGet gid l = none ↔ gid ∉ l.map Prod.fst := by
  intro l
  induction l with
  | nil => simp [glyphsGet]
  | cons e rest ih =>
      by_cases h : gid = e.1
      · simp [glyphsGet, h]
      · simp [glyphsGet, h, ih]

theorem glyphsGet_append_some {gid : ℕ} {gi : GlyphInfo} :
    ∀ {l l' : List (ℕ × GlyphInfo)}, glyphsGet gid l = some gi →
      glyphsGet gid (l ++ l') = some gi := by
  intro l
  induction l with
  | nil => intro l' h; simp [glyphsGet] at h
  | cons e rest ih =>
      intro l' h
      by_cases hg : gid = e.1
      · simp only [glyphsGet, if_pos hg] at h ⊢
        exact h
      · simp only [glyphsGet, if_neg hg] at h ⊢
        exact ih h

theorem glyphsGet_append_none {gid : ℕ} :
    ∀ {l : List (ℕ × GlyphInfo)} (l' : List (ℕ × GlyphInfo)),
      glyphsGet gid l = none → glyphsGet gid (l ++ l') = glyphsGet gid l' := by
  intro l
  induction l with
  | nil => intro l' _; simp
  | cons e rest ih =>
      intro l' h
      by_cases hg : gid = e.1
      · simp only [glyphsGet, if_pos hg] at h
        exact absurd h (by simp)
      · simp only [glyphsGet, if_neg hg] at h ⊢
        exact ih l' h

theorem glyphsGet_append_self (gid : ℕ) (gi : GlyphInfo) (l : List (ℕ × GlyphInfo))
    (h : glyphsGet gid l = none) : glyphsGet gid (l ++ [(gid, gi)]) = some gi := by
  rw [glyphsGet_append_none _ h]
  simp [glyphsGet]

theorem allocGlyph_hit (sdfMargin : ℚ) (G : ℕ) (gd : ℕ → GlyphData) (atlas : Atlas)
    (gid : ℕ) (gi : GlyphInfo) (h : glyphsGet gid atlas.glyphs = some gi) :
    allocGlyph sdfMargin G gd atlas gid = (atlas, gi, false) := by
  simp [allocGlyph, h]

theorem allocGlyph_miss (sdfMargin : ℚ) (G : ℕ) (gd : ℕ → GlyphData) (atlas : Atlas)
    (gid : ℕ) (h : glyphsGet gid atlas.glyphs = none) :
    allocGlyph sdfMargin G gd atlas gid =
      ({ count := atlas.count + 1,
         glyphs := atlas.glyphs ++ [(gid, newGlyphInfo sdfMargin G atlas.count (gd gid))] },
       newGlyphInfo sdfMargin G atlas.count (gd gid), true) := by
  simp [allocGlyph, h]

theorem allocGlyph_lookup_after (sdfMargin : ℚ) (G : ℕ) (gd : ℕ → GlyphData)
    (atlas : Atlas) (gid : ℕ) :
    glyphsGet gid (allocGlyph sdfMargin G gd atlas gid).1.glyphs =
      some (allocGlyph sdfMargin G gd atlas gid).2.1 := by
  cases h : glyphsGet gid atlas.glyphs with
  | some gi => rw [allocGlyph_hit sdfMargin G gd atlas gid gi h]; exact h
  | none =>
      rw [allocGlyph_miss sdfMargin G gd atlas gid h]
      exact glyphsGet_append_self gid _ atlas.glyphs h

theorem allocGlyph_idem (sdfMargin : ℚ) (G : ℕ) (gd : ℕ → GlyphData)
    (atlas : Atlas) (gid : ℕ) :
    allocGlyph sdfMargin G gd (allocGlyph sdfMargin G gd atlas gid).1 gid =
      ((allocGlyph sdfMargin G gd atlas gid).1,
       (allocGlyph sdfMargin G gd atlas gid).2.1, false) := by
  exact allocGlyph_hit sdfMargin G gd _ gid _
    (allocGlyph_lookup_after sdfMargin G gd atlas gid)

/-! ### First-seen order -/

theorem mem_firstNew (a : ℕ) :
    ∀ (l seen : List ℕ), a ∈ firstNew seen l ↔ (a ∈ l ∧ a ∉ seen) := by
  intro l
  induction l with
  | nil => intro seen; simp [firstNew]
  | cons b t ih =>
      intro seen
      by_cases h : b ∈ seen
      · simp only [firstNew, if_pos h, ih, List.mem_cons]
        constructor
        · rintro ⟨h1, h2⟩; exact ⟨Or.inr h1, h2⟩
        · rintro ⟨h1 | h1, h2⟩
          · exact absurd (h1 ▸ h) h2
          · exact ⟨h1, h2⟩
      · simp only [firstNew, if_neg h, List.mem_cons, ih, List.mem_append,
          List.mem_singleton]
        constructor
        · rintro (rfl | ⟨h1, h2⟩)
          · exact ⟨Or.inl rfl, h⟩
          · exact ⟨Or.inr h1, fun hs => h2 (Or.inl hs)⟩
        · rintro ⟨h1 | h1, h2⟩
          · exact Or.inl h1
          · rcases eq_or_ne a b with rfl | hab
            · exact Or.inl rfl
            · exact Or.inr ⟨h1, fun hs =>
                hs.elim h2 (fun hs2 => hs2.elim hab (fun hn => (List.not_mem_nil a) hn))⟩

theorem firstNew_nodup : ∀ (l seen : List ℕ), (firstNew seen l).Nodup := by
  intro l
  induction l with
  | nil => intro seen; simp [firstNew]
  | cons b t ih =>
      intro seen
      by_cases h : b ∈ seen
      · simpa [firstNew, if_pos h] using ih seen
      · rw [firstNew, if_neg h]
        refine List.nodup_cons.mpr ⟨fun hb => ?_, ih (seen ++ [b])⟩
        exact ((mem_firstNew b t (seen ++ [b])).mp hb).2 (by simp)

theorem firstNew_append :
    ∀ (l1 l2 seen : List ℕ),
      firstNew seen (l1 ++ l2) =
        firstNew seen l1 ++ firstNew (seen ++ firstNew seen l1) l2 := by
  intro l1
  induction l1 with
  | nil => intro l2 seen; simp [firstNew]
  | cons b t ih =>
      intro l2 seen
      by_cases h : b ∈ seen
      · simp only [List.cons_append, firstNew, if_pos h]
        exact ih l2 seen
      · simp only [List.cons_append, List.append_eq, firstNew, if_neg h]
        rw [ih l2 (seen ++ [b])]
        simp [List.append_assoc]

theorem firstNew_nil (seen : List ℕ) : firstNew seen [] = [] := rfl

theorem firstNew_cons (seen : List ℕ) (a : ℕ) (l : List ℕ) :
    firstNew seen (a :: l) =
      if a ∈ seen then firstNew seen l else a :: firstNew (seen ++ [a]) l := rfl

theorem glyphsGet_mem_of_some {gid : ℕ} {gi : GlyphInfo} {l : List (ℕ × GlyphInfo)}
    (h : glyphsGet gid l = some gi) : gid ∈ l.map Prod.fst := by
  by_contra hc
  rw [(glyphsGet_eq_none gid l).mpr hc] at h
  exact Option.noConfusion h

theorem processGlyphs_spec (sdfMargin : ℚ) (G : ℕ) (gd : ℕ → GlyphData) (fm : ℚ) :
    ∀ (es : List (ℕ × ℚ × ℚ)) (atlas : Atlas),
      ∃ tail : List (ℕ × GlyphInfo),
        (processGlyphs sdfMargin G gd fm atlas es).1.glyphs = atlas.glyphs ++ tail ∧
        tail.map Prod.fst = firstNew (atlas.glyphs.map Prod.fst) (es.map fun e => e.1) ∧
        (processGlyphs sdfMargin G gd fm atlas es).2.1 = tail.map Prod.snd ∧
        (processGlyphs sdfMargin G gd fm atlas es).1.count = atlas.count + tail.length ∧
        (atlas.count = atlas.glyphs.length →
          tail.map (fun p => p.2.atlasIndex) = List.range' atlas.count tail.length) := by
  intro es
  induction es with
  | nil =>
      intro atlas
      exact ⟨[], by simp [processGlyphs, firstNew_nil, List.range']⟩
  | cons e rest ih =>
      intro atlas
      cases h : glyphsGet e.1 atlas.glyphs with
      | some gi =>
          obtain ⟨tail, h1, h2, h3, h4, h5⟩ := ih atlas
          have hmem : e.1 ∈ atlas.glyphs.map Prod.fst := glyphsGet_mem_of_some h
          refine ⟨tail, ?_, ?_, ?_, ?_, ?_⟩
          · simpa [processGlyphs, allocGlyph_hit sdfMargin G gd atlas e.1 gi h] using h1
          · simpa [firstNew_cons, hmem] using h2
          · simpa [processGlyphs, allocGlyph_hit sdfMargin G gd atlas e.1 gi h] using h3
          · simpa [processGlyphs, allocGlyph_hit sdfMargin G gd atlas e.1 gi h] using h4
          · exact h5
      | none =>
          obtain ⟨tail', h1, h2, h3, h4, h5⟩ :=
            ih ⟨atlas.count + 1,
                atlas.glyphs ++ [(e.1, newGlyphInfo sdfMargin G atlas.count (gd e.1))]⟩
          have hmem : e.1 ∉ atlas.glyphs.map Prod.fst := (glyphsGet_eq_none e.1 atlas.glyphs).mp h
          refine ⟨(e.1, newGlyphInfo sdfMargin G atlas.count (gd e.1)) :: tail', ?_, ?_, ?_, ?_, ?_⟩
          · simp only [processGlyphs, allocGlyph_miss sdfMargin G gd atlas e.1 h]
            rw [h1]
            simp
          · simp only [List.map_cons]
            rw [h2]
            simp only [firstNew_cons, if_neg hmem]
            congr 2
            simp
          · simp only [processGlyphs, allocGlyph_miss sdfMargin G gd atlas e.1 h]
            rw [h3]
            simp
          · simp only [processGlyphs, allocGlyph_miss sdfMargin G gd atlas e.1 h]
            rw [h4]
            simp
            omega
          · intro hc
            have hc' : atlas.count + 1 =
                (atlas.glyphs ++ [(e.1, newGlyphInfo sdfMargin G atlas.count (gd e.1))]).length := by
              simp [hc]
            simp only [List.map_cons, h5 hc']
            have : (newGlyphInfo sdfMargin G atlas.count (gd e.1)).atlasIndex = atlas.count := rfl
            rw [this]
            simp [List.range']

theorem runRequests_spec (sdfMargin : ℚ) (G : ℕ) (gd : ℕ → GlyphData) (fm : ℚ) :
    ∀ (reqs : List (List (ℕ × ℚ × ℚ))) (atlas : Atlas),
      ∃ tail : List (ℕ × GlyphInfo),
        (runRequests sdfMargin G gd fm atlas reqs).1.glyphs = atlas.glyphs ++ tail ∧
        tail.map Prod.fst =
          firstNew (atlas.glyphs.map Prod.fst)
            ((reqs.map fun req => req.map fun e => e.1).join) ∧
        (runRequests sdfMargin G gd fm atlas reqs).2 = tail.map Prod.snd := by
  intro reqs
  induction reqs with
  | nil =>
      intro atlas
      exact ⟨[], by simp [runRequests, firstNew_nil]⟩
  | cons req rest ih =>
      intro atlas
      obtain ⟨t1, p1, p2, p3, _, _⟩ := processGlyphs_spec sdfMargin G gd fm req atlas
      obtain ⟨t2, q1, q2, q3⟩ := ih (processGlyphs sdfMargin G gd fm atlas req).1
      refine ⟨t1 ++ t2, ?_, ?_, ?_⟩
      · simp only [runRequests]
        rw [q1, p1, List.append_assoc]
      · have hjoin : ((req :: rest).map fun r => r.map fun e => e.1).join
            = (req.map fun e => e.1) ++ ((rest.map fun r => r.map fun e => e.1)).join := rfl
        rw [hjoin, firstNew_append, List.map_append, p2, q2, p1, List.map_append, p2]
      · simp only [runRequests]
        rw [p3, q3, List.map_append]

/-- Claim C1: for every glyph ID and every atlas, exactly one `GlyphEntry` is ever
created no matter how many render requests on that atlas reference the glyph:
over any sequence of requests against one atlas, each referenced glyph id has
exactly one cache entry, exactly one rasterization task is queued per entry, and
a repeated `allocateSlot` call for the same id returns the identical entry
(same `atlasIndex`) without queueing a second task. -/
theorem spec_C1 (sdfMargin : ℚ) (G : ℕ) (gd : ℕ → GlyphData) (fm : ℚ)
    (reqs : List (List (ℕ × ℚ × ℚ))) :
    (∀ gid : ℕ,
      ((runRequests sdfMargin G gd fm ⟨0, []⟩ reqs).1.glyphs.map Prod.fst).count gid =
        if gid ∈ ((reqs.map fun req => req.map fun e => e.1).join) then 1 else 0) ∧
    (runRequests sdfMargin G gd fm ⟨0, []⟩ reqs).2.length =
      (runRequests sdfMargin G gd fm ⟨0, []⟩ reqs).1.glyphs.length ∧
    (∀ (atlas : Atlas) (gid : ℕ),
      allocGlyph sdfMargin G gd (allocGlyph sdfMargin G gd atlas gid).1 gid =
        ((allocGlyph sdfMargin G gd atlas gid).1,
         (allocGlyph sdfMargin G gd atlas gid).2.1, false)) := by
  obtain ⟨tail, h1, h2, h3⟩ := runRequests_spec sdfMargin G gd fm reqs ⟨0, []⟩
  have hkeys : tail.map Prod.fst =
      firstNew [] ((reqs.map fun req => req.map fun e => e.1).join) := by
    simpa using h2
  refine ⟨?_, ?_, ?_⟩
  · intro gid
    rw [h1]
    have hgl : ((⟨0, []⟩ : Atlas).glyphs ++ tail).map Prod.fst = tail.map Prod.fst := by simp
    rw [hgl]
    by_cases hm : gid ∈ ((reqs.map fun req => req.map fun e => e.1).join)
    · rw [if_pos hm]
      refine List.count_eq_one_of_mem (hkeys ▸ firstNew_nodup _ []) ?_
      rw [hkeys]
      exact (mem_firstNew gid _ []).mpr ⟨hm, List.not_mem_nil gid⟩
    · rw [if_neg hm]
      refine List.count_eq_zero_of_not_mem ?_
      rw [hkeys]
      intro hc
      exact hm ((mem_firstNew gid _ []).mp hc).1
  · rw [h3, h1]
    simp
  · intro atlas gid
    exact allocGlyph_idem sdfMargin G gd atlas gid

/-- Claim C4: the distinct glyph ids first seen on an atlas receive `atlasIndex`
values exactly `0, 1, ..., N-1` in first-seen order, and the assignment is stable:
processing further requests only appends to the cache, never changing an
existing entry. -/
theorem spec_C4 (sdfMargin : ℚ) (G : ℕ) (gd : ℕ → GlyphData) (fm : ℚ)
    (es : List (ℕ × ℚ × ℚ)) :
    (processGlyphs sdfMargin G gd fm ⟨0, []⟩ es).1.glyphs.map Prod.fst =
      firstNew [] (es.map fun e => e.1) ∧
    (processGlyphs sdfMargin G gd fm ⟨0, []⟩ es).1.glyphs.map (fun p => p.2.atlasIndex) =
      List.range (processGlyphs sdfMargin G gd fm ⟨0, []⟩ es).1.glyphs.length ∧
    (∀ (atlas : Atlas) (es2 : List (ℕ × ℚ × ℚ)), ∃ tail,
      (processGlyphs sdfMargin G gd fm atlas es2).1.glyphs = atlas.glyphs ++ tail) := by
  obtain ⟨tail, h1, h2, h3, h4, h5⟩ := processGlyphs_spec sdfMargin G gd fm es ⟨0, []⟩
  refine ⟨?_, ?_, ?_⟩
  · rw [h1]
    simpa using h2
  · rw [h1]
    simpa [List.range_eq_range'] using h5 rfl
  · intro atlas es2
    obtain ⟨t, ht, _⟩ := processGlyphs_spec sdfMargin G gd fm es2 atlas
    exact ⟨t, ht⟩

/-- Claim C7, counterexample: in the claimed scenario (`sdfGlyphSize = 32`,
path bounds `[0,0,100,100]`, `sdfMargin = 1/16`), the margin
`100/32 * (1/16*32 + 0.5)` equals `125/16 = 7.8125`, which is nowhere near the
claimed value `≈ 16.56` (it differs by more than 8). -/
theorem spec_C7_counterexample :
    fontUnitsMargin (1/16) 32 { minX := 0, minY := 0, maxX := 100, maxY := 100 } = 125/16 ∧
    (125/16 : ℚ) + 8 < 1656/100 := by
  constructor
  · norm_num [fontUnitsMargin]
  · norm_num

/-- Claim C7, amended: with `sdfGlyphSize = 32`, default `sdfMargin = 1/16`,
a glyph with path bounds `[0,0,100,100]` referenced twice in one request causes
exactly one rasterization task, and the margin added to each side of the
`sdfViewBox` is `100/32 * (1/16*32 + 0.5) = 7.8125`. -/
theorem spec_C7 :
    (processGlyphs (1/16) 32
        (fun _ => { path := 0, pathBounds := { minX := 0, minY := 0, maxX := 100, maxY := 100 } })
        (1/100) ⟨0, []⟩ [(7, 0, 0), (7, 5, 0)]).2.1.length = 1 ∧
    fontUnitsMargin (1/16) 32 { minX := 0, minY := 0, maxX := 100, maxY := 100 } = 125/16 ∧
    (processGlyphs (1/16) 32
        (fun _ => { path := 0, pathBounds := { minX := 0, minY := 0, maxX := 100, maxY := 100 } })
        (1/100) ⟨0, []⟩ [(7, 0, 0), (7, 5, 0)]).2.1 =
      [{ path := 0, atlasIndex := 0,
         sdfViewBox := { minX := -(125/16), minY := -(125/16),
                         maxX := 100 + 125/16, maxY := 100 + 125/16 } }] ∧
    (processGlyphs (1/16) 32
        (fun _ => { path := 0, pathBounds := { minX := 0, minY := 0, maxX := 100, maxY := 100 } })
        (1/100) ⟨0, []⟩ [(7, 0, 0), (7, 5, 0)]).2.2.2 = [0, 0] := by
  have hm : fontUnitsMargin (1/16) 32
      { minX := 0, minY := 0, maxX := 100, maxY := 100 } = 125/16 := by
    norm_num [fontUnitsMargin]
  refine ⟨?_, hm, ?_, ?_⟩
  · norm_num [processGlyphs, allocGlyph, glyphsGet, newGlyphInfo]
  · norm_num [processGlyphs, allocGlyph, glyphsGet, newGlyphInfo, fontUnitsMargin]
  · norm_num [processGlyphs, allocGlyph, glyphsGet, newGlyphInfo]

/-- Claim C8: a render request whose typeset result has no glyphs (as an empty
string yields) completes with an unchanged atlas, no queued rasterization task,
an empty `glyphBounds` array and an empty `glyphAtlasIndices` array; the
assembly is a total function, so no error path exists. -/
theorem spec_C8 (sdfMargin : ℚ) (G : ℕ) (atlas : Atlas) (res : TypesetResult)
    (h : res.glyphIds = []) :
    (getTextRenderInfo sdfMargin G atlas res).1 = atlas ∧
    (getTextRenderInfo sdfMargin G atlas res).2.1 = [] ∧
    (getTextRenderInfo sdfMargin G atlas res).2.2.glyphBounds = [] ∧
    (getTextRenderInfo sdfMargin G atlas res).2.2.glyphAtlasIndices = [] := by
  simp [getTextRenderInfo, h, processGlyphs]

theorem spec_C8_witness :
    (⟨[], [], 10, 1000, fun _ => ⟨0, ⟨0, 0, 0, 0⟩⟩⟩ : TypesetResult).glyphIds = [] ∧
    (getTextRenderInfo (1/16) 64 ⟨0, []⟩
        ⟨[], [], 10, 1000, fun _ => ⟨0, ⟨0, 0, 0, 0⟩⟩⟩).1 = ⟨0, []⟩ ∧
    (getTextRenderInfo (1/16) 64 ⟨0, []⟩
        ⟨[], [], 10, 1000, fun _ => ⟨0, ⟨0, 0, 0, 0⟩⟩⟩).2.1 = [] ∧
    (getTextRenderInfo (1/16) 64 ⟨0, []⟩
        ⟨[], [], 10, 1000, fun _ => ⟨0, ⟨0, 0, 0, 0⟩⟩⟩).2.2.glyphBounds = [] ∧
    (getTextRenderInfo (1/16) 64 ⟨0, []⟩
        ⟨[], [], 10, 1000, fun _ => ⟨0, ⟨0, 0, 0, 0⟩⟩⟩).2.2.glyphAtlasIndices = [] :=
  ⟨rfl,
   (spec_C8 (1/16) 64 ⟨0, []⟩ _ rfl).1,
   (spec_C8 (1/16) 64 ⟨0, []⟩ _ rfl).2.1,
   (spec_C8 (1/16) 64 ⟨0, []⟩ _ rfl).2.2.1,
   (spec_C8 (1/16) 64 ⟨0, []⟩ _ rfl).2.2.2⟩

/-- Claim C9: a `configureTextBuilder` call made before the first render request
overrides exactly the supplied configuration fields (no warning); a call made
after `hasRequested` is set leaves the whole state unchanged and warns; the
first render request sets `hasRequested`, and configuring never clears it. -/
theorem spec_C9 (c : TBConfig) (p : TBConfigPatch) (st : BuilderState) :
    ((configureTextBuilder ⟨c, false⟩ p).1.config.defaultFontURL
        = p.defaultFontURL.getD c.defaultFontURL ∧
     (configureTextBuilder ⟨c, false⟩ p).1.config.sdfGlyphSize
        = p.sdfGlyphSize.getD c.sdfGlyphSize ∧
     (configureTextBuilder ⟨c, false⟩ p).1.config.sdfMargin
        = p.sdfMargin.getD c.sdfMargin ∧
     (configureTextBuilder ⟨c, false⟩ p).1.config.sdfExponent
        = p.sdfExponent.getD c.sdfExponent ∧
     (configureTextBuilder ⟨c, false⟩ p).1.config.textureWidth
        = p.textureWidth.getD c.textureWidth ∧
     (configureTextBuilder ⟨c, false⟩ p).2 = false) ∧
    configureTextBuilder ⟨c, true⟩ p = (⟨c, true⟩, true) ∧
    (beginRequest st).hasRequested = true ∧
    (configureTextBuilder st p).1.hasRequested = st.hasRequested := by
  refine ⟨⟨rfl, rfl, rfl, rfl, rfl, rfl⟩, rfl, rfl, ?_⟩
  cases hb : st.hasRequested <;> simp [configureTextBuilder, hb]

/-- Claim C10: for every newly allocated glyph, the `maxDistance` argument passed
to the SDF generator equals the larger of the `sdfViewBox`'s width and height,
which is the maximum extent of the glyph's path bounds plus twice the computed
`fontUnitsMargin`. -/
theorem spec_C10 (sdfMargin : ℚ) (G : ℕ) (gd : ℕ → GlyphData) (atlas : Atlas) (gid : ℕ)
    (h : glyphsGet gid atlas.glyphs = none) :
    maxDist (allocGlyph sdfMargin G gd atlas gid).2.1.sdfViewBox =
      max ((gd gid).pathBounds.maxX - (gd gid).pathBounds.minX)
          ((gd gid).pathBounds.maxY - (gd gid).pathBounds.minY)
        + 2 * fontUnitsMargin sdfMargin G (gd gid).pathBounds := by
  rw [allocGlyph_miss sdfMargin G gd atlas gid h]
  show maxDist (newGlyphInfo sdfMargin G atlas.count (gd gid)).sdfViewBox = _
  simp only [maxDist, newGlyphInfo]
  have key : ∀ a c : ℚ,
      a + fontUnitsMargin sdfMargin G (gd gid).pathBounds
        - (c - fontUnitsMargin sdfMargin G (gd gid).pathBounds)
      = (a - c) + 2 * fontUnitsMargin sdfMargin G (gd gid).pathBounds := by
    intro a c; ring
  rw [key, key, max_add_add_right]

theorem spec_C10_witness :
    glyphsGet 0 (⟨0, []⟩ : Atlas).glyphs = none ∧
    maxDist (allocGlyph (1/16) 32 (fun _ => ⟨0, ⟨0, 0, 100, 100⟩⟩) ⟨0, []⟩ 0).2.1.sdfViewBox =
      max ((100 : ℚ) - 0) (100 - 0)
        + 2 * fontUnitsMargin (1/16) 32 ⟨0, 0, 100, 100⟩ :=
  ⟨rfl, spec_C10 (1/16) 32 (fun _ => ⟨0, ⟨0, 0, 100, 100⟩⟩) ⟨0, []⟩ 0 rfl⟩

/-! ### Byte-store and packing-address lemmas -/

theorem byteSet_self (f : ℕ → ℕ) (i v : ℕ) : byteSet f i v i = v := by
  simp [byteSet]

theorem byteSet_ne (f : ℕ → ℕ) (i v j : ℕ) (h : j ≠ i) : byteSet f i v j = f j := by
  simp [byteSet, h]

theorem foldl_byteSet_ne (a v : ℕ → ℕ) :
    ∀ (l : List ℕ) (d : ℕ → ℕ) (i : ℕ), (∀ x ∈ l, i ≠ a x) →
      (l.foldl (fun d2 x => byteSet d2 (a x) (v x)) d) i = d i := by
  intro l
  induction l with
  | nil => intro d i _; rfl
  | cons b t ih =>
      intro d i h
      simp only [List.foldl_cons]
      rw [ih _ i (fun x hx => h x (List.mem_cons_of_mem b hx))]
      exact byteSet_ne d (a b) (v b) i (h b (List.mem_cons_self b t))

theorem foldl_byteSet_eq (a v : ℕ → ℕ) :
    ∀ (l : List ℕ) (d : ℕ → ℕ) (x0 : ℕ), x0 ∈ l →
      (∀ b ∈ l, a b = a x0 → b = x0) →
      (l.foldl (fun d2 x => byteSet d2 (a x) (v x)) d) (a x0) = v x0 := by
  intro l
  induction l with
  | nil => intro d x0 h _; cases h
  | cons b t ih =>
      intro d x0 hmem hinj
      simp only [List.foldl_cons]
      by_cases hbt : x0 ∈ t
      · exact ih _ x0 hbt (fun c hc hac => hinj c (List.mem_cons_of_mem b hc) hac)
      · have hx0 : b = x0 := by
          rcases List.mem_cons.mp hmem with h | h
          · exact h.symm
          · exact absurd h hbt
        subst hx0
        rw [foldl_byteSet_ne a v t _ (a b) ?_]
        · exact byteSet_self d (a b) (v b)
        · intro x hx heq
          have hxb : x = b := hinj x (List.mem_cons_of_mem b hx) heq.symm
          exact hbt (hxb ▸ hx)

theorem mulAddInj {n a b c d : ℕ} (hb : b < n) (hd : d < n) (h : a * n + b = c * n + d) :
    a = c ∧ b = d := by
  have hn : 0 < n := Nat.lt_of_le_of_lt (Nat.zero_le b) hb
  have e1 : (n * a + b) % n = b % n := Nat.mul_add_mod n a b
  have e2 : (n * c + d) % n = d % n := Nat.mul_add_mod n c d
  rw [Nat.mul_comm n a] at e1
  rw [Nat.mul_comm n c] at e2
  rw [h, e2, Nat.mod_eq_of_lt hb, Nat.mod_eq_of_lt hd] at e1
  refine ⟨?_, e1.symm⟩
  have hmul : a * n = c * n := by omega
  exact Nat.eq_of_mul_eq_mul_right hn hmul

theorem slotAddr_canonical (W G s y x : ℕ) :
    slotAddr W G s y x =
      ((s / 4 / (W / G) * G + y) * W + (s / 4 % (W / G) * G + x)) * 4 + s % 4 := by
  simp only [slotAddr, baseStartIndex]
  ring

theorem packColBound (W G q x : ℕ) (hG : 0 < G) (hdvd : G ∣ W) (hW : 0 < W) (hx : x < G) :
    q % (W / G) * G + x < W := by
  have hcols : 0 < W / G := Nat.div_pos (Nat.le_of_dvd hW hdvd) hG
  have hWG : W / G * G = W := Nat.div_mul_cancel hdvd
  calc q % (W / G) * G + x < q % (W / G) * G + G := by omega
    _ = (q % (W / G) + 1) * G := by ring
    _ ≤ W / G * G := Nat.mul_le_mul_right G (Nat.succ_le_of_lt (Nat.mod_lt q hcols))
    _ = W := hWG

theorem slotAddr_inj (W G : ℕ) (hG : 0 < G) (hdvd : G ∣ W) (hW : 0 < W)
    {s y x s' y' x' : ℕ} (hy : y < G) (hx : x < G) (hy' : y' < G) (hx' : x' < G)
    (h : slotAddr W G s y x = slotAddr W G s' y' x') : s = s' ∧ y = y' ∧ x = x' := by
  rw [slotAddr_canonical, slotAddr_canonical] at h
  have h4 : s % 4 < 4 := Nat.mod_lt s (by norm_num)
  have h4' : s' % 4 < 4 := Nat.mod_lt s' (by norm_num)
  obtain ⟨hT, hr⟩ := mulAddInj h4 h4' h
  have hC : s / 4 % (W / G) * G + x < W := packColBound W G (s / 4) x hG hdvd hW hx
  have hC' : s' / 4 % (W / G) * G + x' < W := packColBound W G (s' / 4) x' hG hdvd hW hx'
  obtain ⟨hR, hCeq⟩ := mulAddInj hC hC' hT
  obtain ⟨hp, hyy⟩ := mulAddInj hy hy' hR
  obtain ⟨hq, hxx⟩ := mulAddInj hx hx' hCeq
  refine ⟨?_, hyy, hxx⟩
  have e1 : W / G * (s / 4 / (W / G)) + s / 4 % (W / G) = s / 4 := Nat.div_add_mod _ _
  have e2 : W / G * (s' / 4 / (W / G)) + s' / 4 % (W / G) = s' / 4 := Nat.div_add_mod _ _
  rw [hp, hq] at e1
  have ediv : s / 4 = s' / 4 := e1 ▸ e2
  have f1 : 4 * (s / 4) + s % 4 = s := Nat.div_add_mod s 4
  have f2 : 4 * (s' / 4) + s' % 4 = s' := Nat.div_add_mod s' 4
  omega

theorem slotAddr_lt (W G h : ℕ) (hG : 0 < G) (hdvd : G ∣ W) (hW : 0 < W) (hh : G ∣ h)
    {s y x : ℕ} (hy : y < G) (hx : x < G) (hs : (s + 1) * G * G ≤ 4 * W * h) :
    slotAddr W G s y x < 4 * W * h := by
  obtain ⟨m, rfl⟩ := hh
  rw [slotAddr_canonical]
  have hcols : 0 < W / G := Nat.div_pos (Nat.le_of_dvd hW hdvd) hG
  have hWG : W / G * G = W := Nat.div_mul_cancel hdvd
  have hdd : s / 4 / (W / G) = s / (4 * (W / G)) := Nat.div_div_eq_div_mul s 4 (W / G)
  have hsm : s < m * (4 * (W / G)) := by
    have h1 : (s + 1) * (G * G) ≤ 4 * (W / G) * m * (G * G) := by
      calc (s + 1) * (G * G) = (s + 1) * G * G := by ring
        _ ≤ 4 * W * (G * m) := hs
        _ = 4 * (W / G * G) * (G * m) := by rw [hWG]
        _ = 4 * (W / G) * m * (G * G) := by ring
    have h2 : s + 1 ≤ 4 * (W / G) * m := Nat.le_of_mul_le_mul_right h1 (Nat.mul_pos hG hG)
    have h3 : 4 * (W / G) * m = m * (4 * (W / G)) := by ring
    omega
  have hq : s / (4 * (W / G)) < m :=
    (Nat.div_lt_iff_lt_mul (by omega : 0 < 4 * (W / G))).mpr hsm
  have hR : s / 4 / (W / G) * G + y < G * m := by
    rw [hdd]
    calc s / (4 * (W / G)) * G + y < s / (4 * (W / G)) * G + G := by omega
      _ = (s / (4 * (W / G)) + 1) * G := by ring
      _ ≤ m * G := Nat.mul_le_mul_right G (Nat.succ_le_of_lt hq)
      _ = G * m := Nat.mul_comm m G
  have hC : s / 4 % (W / G) * G + x < W := packColBound W G (s / 4) x hG hdvd hW hx
  have hr4 : s % 4 < 4 := Nat.mod_lt s (by norm_num)
  calc ((s / 4 / (W / G) * G + y) * W + (s / 4 % (W / G) * G + x)) * 4 + s % 4
      < ((s / 4 / (W / G) * G + y) * W + (s / 4 % (W / G) * G + x)) * 4 + 4 := by omega
    _ = ((s / 4 / (W / G) * G + y) * W + (s / 4 % (W / G) * G + x + 1)) * 4 := by ring
    _ ≤ ((s / 4 / (W / G) * G + y) * W + W) * 4 :=
        Nat.mul_le_mul_right 4 (Nat.add_le_add_left (Nat.succ_le_of_lt hC) _)
    _ = (s / 4 / (W / G) * G + y + 1) * W * 4 := by ring
    _ ≤ G * m * W * 4 :=
        Nat.mul_le_mul_right 4 (Nat.mul_le_mul_right W (Nat.succ_le_of_lt hR))
    _ = 4 * W * (G * m) := by ring

theorem writeRow_ne (W G base y : ℕ) (td d : ℕ → ℕ) (i : ℕ)
    (h : ∀ x, x < G → i ≠ base + y * W * 4 + x * 4) :
    writeRow W G base y td d i = d i :=
  foldl_byteSet_ne (fun x => base + y * W * 4 + x * 4) (fun x => td (y * G + x))
    (List.range G) d i (fun x hx => h x (List.mem_range.mp hx))

theorem writeRow_eq (W G base y x : ℕ) (td d : ℕ → ℕ) (hx : x < G) :
    writeRow W G base y td d (base + y * W * 4 + x * 4) = td (y * G + x) :=
  foldl_byteSet_eq (fun x2 => base + y * W * 4 + x2 * 4) (fun x2 => td (y * G + x2))
    (List.range G) d x (List.mem_range.mpr hx)
    (fun b _ heq => by
      have h2 : base + y * W * 4 + b * 4 = base + y * W * 4 + x * 4 := heq
      omega)

theorem foldl_writeRow_ne (W G base : ℕ) (td : ℕ → ℕ) :
    ∀ (l : List ℕ) (d : ℕ → ℕ) (i : ℕ),
      (∀ y ∈ l, ∀ x, x < G → i ≠ base + y * W * 4 + x * 4) →
      (l.foldl (fun d2 y => writeRow W G base y td d2) d) i = d i := by
  intro l
  induction l with
  | nil => intro d i _; rfl
  | cons b t ih =>
      intro d i h
      simp only [List.foldl_cons]
      rw [ih _ i (fun y hy => h y (List.mem_cons_of_mem b hy))]
      exact writeRow_ne W G base b td d i (h b (List.mem_cons_self b t))

theorem foldl_writeRow_eq (W G base : ℕ) (td : ℕ → ℕ) (x : ℕ) (hx : x < G)
    (hGW : G ≤ W) (hW : 0 < W) :
    ∀ (l : List ℕ) (d : ℕ → ℕ) (y : ℕ), y ∈ l →
      (l.foldl (fun d2 y2 => writeRow W G base y2 td d2) d) (base + y * W * 4 + x * 4)
        = td (y * G + x) := by
  intro l
  induction l with
  | nil => intro d y h; cases h
  | cons b t ih =>
      intro d y hmem
      simp only [List.foldl_cons]
      by_cases hyt : y ∈ t
      · exact ih _ y hyt
      · have hby : b = y := by
          rcases List.mem_cons.mp hmem with h | h
          · exact h.symm
          · exact absurd h hyt
        subst hby
        rw [foldl_writeRow_ne W G base td t _ _ ?_]
        · exact writeRow_eq W G base b x td d hx
        · intro y' hy' x' hx' heq
          have hlin : b * W + x = y' * W + x' := by omega
          obtain ⟨hb, _⟩ :=
            mulAddInj (Nat.lt_of_lt_of_le hx hGW) (Nat.lt_of_lt_of_le hx' hGW) hlin
          exact hyt (hb ▸ hy')

theorem writeSlotPixels_ne (W G s : ℕ) (td d : ℕ → ℕ) (i : ℕ)
    (h : ∀ y, y < G → ∀ x, x < G → i ≠ slotAddr W G s y x) :
    writeSlotPixels W G s td d i = d i :=
  foldl_writeRow_ne W G (baseStartIndex W G s) td (List.range G) d i
    (fun y hy x hx => h y (List.mem_range.mp hy) x hx)

theorem writeSlotPixels_eq (W G s y x : ℕ) (td d : ℕ → ℕ)
    (hy : y < G) (hx : x < G) (hGW : G ≤ W) (hW : 0 < W) :
    writeSlotPixels W G s td d (slotAddr W G s y x) = td (y * G + x) :=
  foldl_writeRow_eq W G (baseStartIndex W G s) td x hx hGW hW
    (List.range G) d y (List.mem_range.mpr hy)

theorem mapRangeCongr (n : ℕ) (f g : ℕ → ℕ) (h : ∀ k, k < n → f k = g k) :
    (List.range n).map f = (List.range n).map g := by
  induction n with
  | zero => rfl
  | succ n ih =>
      rw [List.range_succ, List.map_append, List.map_append,
        ih (fun k hk => h k (Nat.lt_succ_of_lt hk))]
      simp [h n (Nat.lt_succ_self n)]

theorem readSlot_writeSlotPixels_self (W G s : ℕ) (td d : ℕ → ℕ)
    (hG : 0 < G) (hdvd : G ∣ W) (hW : 0 < W) :
    readSlot W G s (writeSlotPixels W G s td d) = (List.range (G * G)).map td := by
  have hGW : G ≤ W := Nat.le_of_dvd hW hdvd
  unfold readSlot
  apply mapRangeCongr
  intro k hk
  have hy : k / G < G := (Nat.div_lt_iff_lt_mul hG).mpr hk
  have hx : k % G < G := Nat.mod_lt k hG
  rw [writeSlotPixels_eq W G s (k / G) (k % G) td d hy hx hGW hW]
  congr 1
  rw [Nat.mul_comm (k / G) G]
  exact Nat.div_add_mod k G

theorem readSlot_writeSlotPixels_other (W G s s' : ℕ) (td d : ℕ → ℕ)
    (hG : 0 < G) (hdvd : G ∣ W) (hW : 0 < W) (hne : s' ≠ s) :
    readSlot W G s (writeSlotPixels W G s' td d) = readSlot W G s d := by
  unfold readSlot
  apply mapRangeCongr
  intro k hk
  have hy : k / G < G := (Nat.div_lt_iff_lt_mul hG).mpr hk
  have hx : k % G < G := Nat.mod_lt k hG
  apply writeSlotPixels_ne
  intro y2 hy2 x2 hx2 heq
  exact hne ((slotAddr_inj W G hG hdvd hW hy hx hy2 hx2 heq).1.symm)

/-! ### Growth lemmas -/

theorem growOnce_data_lt (t : TexImage) (i : ℕ) (h : i < t.dataLen) :
    (growOnce t).data i = t.data i := by
  simp [growOnce, h]

theorem growOnce_data_ge (t : TexImage) (i : ℕ) (h : t.dataLen ≤ i) :
    (growOnce t).data i = 0 := by
  simp [growOnce, Nat.not_lt.mpr h]

theorem iterate_growOnce_data :
    ∀ (n : ℕ) (t : TexImage) (i : ℕ), i < t.dataLen →
      ((growOnce^[n]) t).data i = t.data i := by
  intro n
  induction n with
  | zero => intro t i _; rfl
  | succ n ih =>
      intro t i h
      rw [Function.iterate_succ_apply]
      rw [ih (growOnce t) i (by simp only [growOnce]; omega)]
      exact growOnce_data_lt t i h

theorem growToFit_of_le (fuel G : ℕ) (t : TexImage) (i : ℕ)
    (h : (i + 1) * G * G ≤ t.dataLen) : growToFit fuel t i G = t := by
  cases fuel with
  | zero => rfl
  | succ n => simp [growToFit, Nat.not_lt.mpr h]

theorem growToFit_pow (G i : ℕ) :
    ∀ (fuel : ℕ) (t : TexImage), ∃ k : ℕ,
      (growToFit fuel t i G).dataLen = t.dataLen * 2 ^ k ∧
      (∀ j, j < k → t.dataLen * 2 ^ j < (i + 1) * G * G) ∧
      (growToFit fuel t i G).width = t.width ∧
      (growToFit fuel t i G).height = t.height * 2 ^ k ∧
      (∀ b, b < t.dataLen → (growToFit fuel t i G).data b = t.data b) := by
  intro fuel
  induction fuel with
  | zero => intro t; exact ⟨0, by simp [growToFit]⟩
  | succ n ih =>
      intro t
      by_cases h : t.dataLen < (i + 1) * G * G
      · obtain ⟨k, h1, h2, h3, h4, h5⟩ := ih (growOnce t)
        have hstep : growToFit (n + 1) t i G = growToFit n (growOnce t) i G := by
          simp only [growToFit, if_pos h]
        have hlen2 : (growOnce t).dataLen = t.dataLen * 2 := rfl
        have hhgt2 : (growOnce t).height = t.height * 2 := rfl
        have hwid2 : (growOnce t).width = t.width := rfl
        refine ⟨k + 1, ?_, ?_, ?_, ?_, ?_⟩
        · rw [hstep, h1, hlen2]
          ring
        · intro j hj
          cases j with
          | zero => simpa using h
          | succ j' =>
              have hj' : j' < k := by omega
              calc t.dataLen * 2 ^ (j' + 1) = t.dataLen * 2 * 2 ^ j' := by ring
                _ < (i + 1) * G * G := by rw [← hlen2]; exact h2 j' hj'
        · rw [hstep, h3, hwid2]
        · rw [hstep, h4, hhgt2]
          ring
        · intro b hb
          rw [hstep, h5 b (by rw [hlen2]; omega)]
          exact growOnce_data_lt t b hb
      · refine ⟨0, ?_, ?_, ?_, ?_, ?_⟩ <;> simp [growToFit, h]

theorem growToFit_covers (G i : ℕ) :
    ∀ (fuel : ℕ) (t : TexImage), (i + 1) * G * G ≤ t.dataLen * 2 ^ fuel →
      (i + 1) * G * G ≤ (growToFit fuel t i G).dataLen := by
  intro fuel
  induction fuel with
  | zero => intro t h; simpa [growToFit] using h
  | succ n ih =>
      intro t h
      by_cases hlt : t.dataLen < (i + 1) * G * G
      · simp only [growToFit, if_pos hlt]
        refine ih (growOnce t) ?_
        have h6 : (growOnce t).dataLen = t.dataLen * 2 := rfl
        rw [h6]
        calc (i + 1) * G * G ≤ t.dataLen * 2 ^ (n + 1) := h
          _ = t.dataLen * 2 * 2 ^ n := by ring
      · simp only [growToFit, if_neg hlt]
        omega

/-! ### Merge lemmas (`sdfResults.forEach`) -/

theorem writeSlot_no_growth (fuel G : ℕ) (t : TexImage) (j : ℕ) (src : ℕ → ℕ)
    (h : (j + 1) * G * G ≤ t.dataLen) :
    writeSlot fuel G t j src =
      { t with data := writeSlotPixels t.width G j src t.data } := by
  unfold writeSlot
  rw [growToFit_of_le fuel G t j h]

theorem merge_preserve (W G fuel s : ℕ) (srcs : ℕ → ℕ → ℕ)
    (hG : 0 < G) (hdvd : G ∣ W) (hW : 0 < W) :
    ∀ (l : List ℕ) (t : TexImage), t.width = W →
      (∀ j ∈ l, (j + 1) * G * G ≤ t.dataLen ∧ j ≠ s) →
      readSlot W G s (mergeSDFResults fuel G t (l.map fun j => (j, srcs j))).data =
        readSlot W G s t.data := by
  intro l
  induction l with
  | nil => intro t _ _; rfl
  | cons j0 rest ih =>
      intro t hw hj
      obtain ⟨hcap0, hne0⟩ := hj j0 (List.mem_cons_self j0 rest)
      have hstep : writeSlot fuel G t j0 (srcs j0) =
          { t with data := writeSlotPixels t.width G j0 (srcs j0) t.data } :=
        writeSlot_no_growth fuel G t j0 (srcs j0) hcap0
      simp only [List.map_cons, mergeSDFResults, List.foldl_cons]
      have hmerge : ∀ u : TexImage,
          (rest.map fun j => (j, srcs j)).foldl
            (fun acc r => writeSlot fuel G acc r.1 r.2) u =
          mergeSDFResults fuel G u (rest.map fun j => (j, srcs j)) := fun u => rfl
      rw [hmerge, hstep]
      rw [ih { t with data := writeSlotPixels t.width G j0 (srcs j0) t.data } hw
        (fun j hjr => hj j (List.mem_cons_of_mem j0 hjr))]
      rw [hw]
      exact readSlot_writeSlotPixels_other W G s j0 (srcs j0) t.data hG hdvd hW hne0

theorem merge_dims (G fuel : ℕ) (srcs : ℕ → ℕ → ℕ) :
    ∀ (l : List ℕ) (t : TexImage),
      (∀ j ∈ l, (j + 1) * G * G ≤ t.dataLen) →
      (mergeSDFResults fuel G t (l.map fun j => (j, srcs j))).width = t.width ∧
      (mergeSDFResults fuel G t (l.map fun j => (j, srcs j))).height = t.height ∧
      (mergeSDFResults fuel G t (l.map fun j => (j, srcs j))).dataLen = t.dataLen := by
  intro l
  induction l with
  | nil => intro t _; exact ⟨rfl, rfl, rfl⟩
  | cons j0 rest ih =>
      intro t hj
      have hcap0 := hj j0 (List.mem_cons_self j0 rest)
      have hstep := writeSlot_no_growth fuel G t j0 (srcs j0) hcap0
      simp only [List.map_cons, mergeSDFResults, List.foldl_cons]
      have hmerge : ∀ u : TexImage,
          (rest.map fun j => (j, srcs j)).foldl
            (fun acc r => writeSlot fuel G acc r.1 r.2) u =
          mergeSDFResults fuel G u (rest.map fun j => (j, srcs j)) := fun u => rfl
      rw [hmerge, hstep]
      exact ih { t with data := writeSlotPixels t.width G j0 (srcs j0) t.data }
        (fun j hjr => hj j (List.mem_cons_of_mem j0 hjr))

theorem merge_read (W G fuel : ℕ) (srcs : ℕ → ℕ → ℕ)
    (hG : 0 < G) (hdvd : G ∣ W) (hW : 0 < W) :
    ∀ (l : List ℕ) (t : TexImage), t.width = W →
      (∀ j ∈ l, (j + 1) * G * G ≤ t.dataLen) →
      ∀ s ∈ l, l.Nodup →
        readSlot W G s (mergeSDFResults fuel G t (l.map fun j => (j, srcs j))).data =
          (List.range (G * G)).map (srcs s) := by
  intro l
  induction l with
  | nil => intro t _ _ s hs _; cases hs
  | cons j0 rest ih =>
      intro t hw hcap s hs hnd
      have hcap0 := hcap j0 (List.mem_cons_self j0 rest)
      have hstep := writeSlot_no_growth fuel G t j0 (srcs j0) hcap0
      simp only [List.map_cons, mergeSDFResults, List.foldl_cons]
      have hmerge : ∀ u : TexImage,
          (rest.map fun j => (j, srcs j)).foldl
            (fun acc r => writeSlot fuel G acc r.1 r.2) u =
          mergeSDFResults fuel G u (rest.map fun j => (j, srcs j)) := fun u => rfl
      rw [hmerge, hstep]
      obtain ⟨hj0r, hndr⟩ := List.nodup_cons.mp hnd
      by_cases hsr : s ∈ rest
      · exact ih { t with data := writeSlotPixels t.width G j0 (srcs j0) t.data } hw
          (fun j hjr => hcap j (List.mem_cons_of_mem j0 hjr)) s hsr hndr
      · have hsj : s = j0 := by
          rcases List.mem_cons.mp hs with h | h
          · exact h
          · exact absurd h hsr
        subst hsj
        rw [merge_preserve W G fuel s srcs hG hdvd hW rest
          { t with data := writeSlotPixels t.width G s (srcs s) t.data } hw
          (fun j hjr => ⟨hcap j (List.mem_cons_of_mem s hjr),
            fun hjs => hj0r (hjs ▸ hjr)⟩)]
        rw [hw]
        exact readSlot_writeSlotPixels_self W G s (srcs s) t.data hG hdvd hW

theorem readSlot_iterate (W G s n : ℕ) (t : TexImage)
    (hG : 0 < G) (hdvd : G ∣ W) (hW : 0 < W)
    (hwidth : t.width = W) (hh : G ∣ t.height) (hlen : t.dataLen = 4 * W * t.height)
    (hcap : (s + 1) * G * G ≤ t.dataLen) :
    readSlot W G s ((growOnce^[n]) t).data = readSlot W G s t.data := by
  unfold readSlot
  apply mapRangeCongr
  intro k hk
  have hy : k / G < G := (Nat.div_lt_iff_lt_mul hG).mpr hk
  have hx : k % G < G := Nat.mod_lt k hG
  apply iterate_growOnce_data
  rw [hlen]
  exact slotAddr_lt W G t.height hG hdvd hW hh hy hx (hlen ▸ hcap)

/-- Claim C2: growing the packed buffer copies every byte below the old length
verbatim to the same offset, zero-fills the rest, and after writing slots
`0..k` (all within capacity) followed by any number of growth steps, re-reading
any slot `s ≤ k` yields exactly the bytes originally written for it. -/
theorem spec_C2 (W G k s n fuel : ℕ) (srcs : ℕ → ℕ → ℕ) (t : TexImage)
    (hG : 0 < G) (hdvd : G ∣ W) (hW : 0 < W)
    (hwidth : t.width = W) (hh : G ∣ t.height) (hlen : t.dataLen = 4 * W * t.height)
    (hcap : (k + 1) * G * G ≤ t.dataLen) (hsk : s ≤ k) :
    (∀ (u : TexImage) (i : ℕ), i < u.dataLen → (growOnce u).data i = u.data i) ∧
    (∀ (u : TexImage) (i : ℕ), u.dataLen ≤ i → (growOnce u).data i = 0) ∧
    readSlot W G s
        ((growOnce^[n])
          (mergeSDFResults fuel G t ((List.range (k + 1)).map fun j => (j, srcs j)))).data
      = (List.range (G * G)).map (srcs s) := by
  have hcaps : ∀ j ∈ List.range (k + 1), (j + 1) * G * G ≤ t.dataLen := by
    intro j hj
    have hjk : j < k + 1 := List.mem_range.mp hj
    calc (j + 1) * G * G
        ≤ (k + 1) * G * G :=
          Nat.mul_le_mul_right G (Nat.mul_le_mul_right G (by omega))
      _ ≤ t.dataLen := hcap
  obtain ⟨hMw, hMh, hMl⟩ := merge_dims G fuel srcs (List.range (k + 1)) t hcaps
  refine ⟨growOnce_data_lt, growOnce_data_ge, ?_⟩
  rw [readSlot_iterate W G s n
      (mergeSDFResults fuel G t ((List.range (k + 1)).map fun j => (j, srcs j)))
      hG hdvd hW (by rw [hMw, hwidth]) (by rw [hMh]; exact hh)
      (by rw [hMl, hMh]; exact hlen)
      (by
        rw [hMl]
        calc (s + 1) * G * G
            ≤ (k + 1) * G * G :=
              Nat.mul_le_mul_right G (Nat.mul_le_mul_right G (by omega))
          _ ≤ t.dataLen := hcap)]
  exact merge_read W G fuel srcs hG hdvd hW (List.range (k + 1)) t hwidth hcaps s
    (List.mem_range.mpr (by omega)) (List.nodup_range (k + 1))

theorem spec_C2_witness :
    ((0 : ℕ) < 2 ∧ (2 : ℕ) ∣ 4 ∧ (0 : ℕ) < 4 ∧ (initTexImage 4 2).width = 4 ∧
     (2 : ℕ) ∣ (initTexImage 4 2).height ∧
     (initTexImage 4 2).dataLen = 4 * 4 * (initTexImage 4 2).height ∧
     (1 + 1) * 2 * 2 ≤ (initTexImage 4 2).dataLen ∧ (1 : ℕ) ≤ 1) ∧
    (growOnce (initTexImage 4 2)).data 5 = (initTexImage 4 2).data 5 ∧
    (growOnce (initTexImage 4 2)).data 40 = 0 ∧
    readSlot 4 2 1
        ((growOnce^[2])
          (mergeSDFResults 0 2 (initTexImage 4 2)
            ((List.range (1 + 1)).map fun j => (j, (fun j2 b => j2 * 10 + b) j)))).data
      = (List.range (2 * 2)).map ((fun j2 b => j2 * 10 + b) 1) := by
  have H := spec_C2 4 2 1 1 2 0 (fun j2 b => j2 * 10 + b) (initTexImage 4 2)
    (by decide) (by decide) (by decide) (by decide) (by decide) (by decide)
    (by decide) (by decide)
  exact ⟨⟨by decide, by decide, by decide, by decide, by decide, by decide,
    by decide, by decide⟩,
    H.1 (initTexImage 4 2) 5 (by decide), H.2.1 (initTexImage 4 2) 40 (by decide), H.2.2⟩

/-- Claim C3: the packing address of slot `s` uses `squareIndex = s / 4` and
`channel = s % 4`; writing a `sdfGlyphSize²` block to slot `s` and reading
slot `s` back returns exactly the written bytes; and a write to any other slot
`s' ≠ s` (including `s ± 4`, same square, different channel) leaves every byte
of slot `s` unchanged. -/
theorem spec_C3 (W G s s' : ℕ) (src src' d : ℕ → ℕ)
    (hG : 0 < G) (hdvd : G ∣ W) (hW : 0 < W) :
    baseStartIndex W G s =
      s / 4 / (W / G) * W * G * 4 + s / 4 % (W / G) * G * 4 + s % 4 ∧
    readSlot W G s (writeSlotPixels W G s src d) = (List.range (G * G)).map src ∧
    (s' ≠ s → readSlot W G s (writeSlotPixels W G s' src' d) = readSlot W G s d) :=
  ⟨rfl, readSlot_writeSlotPixels_self W G s src d hG hdvd hW,
    fun hne => readSlot_writeSlotPixels_other W G s s' src' d hG hdvd hW hne⟩

theorem spec_C3_witness :
    ((0 : ℕ) < 2 ∧ (2 : ℕ) ∣ 4 ∧ (0 : ℕ) < 4 ∧ (4 : ℕ) ≠ 0) ∧
    baseStartIndex 4 2 0 =
      0 / 4 / (4 / 2) * 4 * 2 * 4 + 0 / 4 % (4 / 2) * 2 * 4 + 0 % 4 ∧
    readSlot 4 2 0 (writeSlotPixels 4 2 0 (fun b => b + 1) (fun _ => 9)) =
      (List.range (2 * 2)).map (fun b => b + 1) ∧
    readSlot 4 2 0 (writeSlotPixels 4 2 4 (fun b => b + 7) (fun _ => 9)) =
      readSlot 4 2 0 (fun _ => 9) := by
  have H := spec_C3 4 2 0 4 (fun b => b + 1) (fun b => b + 7) (fun _ => 9)
    (by decide) (by decide) (by decide)
  exact ⟨⟨by decide, by decide, by decide, by decide⟩, H.1, H.2.1, H.2.2 (by decide)⟩

/-- Claim C5: a write targeting slot `i` at or beyond current capacity grows the
buffer by repeated exact doubling until `(i+1) * sdfGlyphSize²` bytes fit: the
final length is the starting length times a power of two, every skipped doubling
was still too small (so no doubling is skipped and no non-doubling increment
occurs), and `writeSlot` changes the length exactly as the growth loop does. -/
theorem spec_C5 (G fuel i : ℕ) (t : TexImage) (src : ℕ → ℕ)
    (hcov : (i + 1) * G * G ≤ t.dataLen * 2 ^ fuel) :
    (i + 1) * G * G ≤ (growToFit fuel t i G).dataLen ∧
    (∃ k : ℕ, (growToFit fuel t i G).dataLen = t.dataLen * 2 ^ k ∧
      ∀ j, j < k → t.dataLen * 2 ^ j < (i + 1) * G * G) ∧
    (writeSlot fuel G t i src).dataLen = (growToFit fuel t i G).dataLen := by
  refine ⟨growToFit_covers G i fuel t hcov, ?_, rfl⟩
  obtain ⟨kk, h1, h2, _, _, _⟩ := growToFit_pow G i fuel t
  exact ⟨kk, h1, h2⟩

theorem spec_C5_witness :
    (8 + 1) * 2 * 2 ≤ (initTexImage 4 2).dataLen * 2 ^ 1 ∧
    ((8 + 1) * 2 * 2 ≤ (growToFit 1 (initTexImage 4 2) 8 2).dataLen ∧
     (∃ k : ℕ,
        (growToFit 1 (initTexImage 4 2) 8 2).dataLen =
          (initTexImage 4 2).dataLen * 2 ^ k ∧
        ∀ j, j < k → (initTexImage 4 2).dataLen * 2 ^ j < (8 + 1) * 2 * 2) ∧
     (writeSlot 1 2 (initTexImage 4 2) 8 (fun _ => 0)).dataLen =
       (growToFit 1 (initTexImage 4 2) 8 2).dataLen) :=
  ⟨by decide, spec_C5 2 1 8 (initTexImage 4 2) (fun _ => 0) (by decide)⟩

/-- Claim C6, amended: the atlas texture is created with `width = textureWidth`
and `height = sdfGlyphSize`; on growth the width stays fixed while the height
and byte length double (it is the height, not the width, that doubles when slot
capacity is exhausted). -/
theorem spec_C6 (W G fuel i : ℕ) (t : TexImage) (src : ℕ → ℕ) :
    (initTexImage W G).width = W ∧
    (initTexImage W G).height = G ∧
    (initTexImage W G).dataLen = G * W * 4 ∧
    (growOnce t).width = t.width ∧
    (growOnce t).height = t.height * 2 ∧
    (growOnce t).dataLen = t.dataLen * 2 ∧
    (growToFit fuel t i G).width = t.width ∧
    (writeSlot fuel G t i src).width = (growToFit fuel t i G).width := by
  obtain ⟨kk, _, _, h3, _, _⟩ := growToFit_pow G i fuel t
  exact ⟨rfl, rfl, rfl, rfl, rfl, rfl, h3, rfl⟩

/-- Claim C6, counterexample: with `textureWidth = 2048` and `sdfGlyphSize = 64`,
writing slot 128 (one past the initial 128-slot capacity) doubles the texture's
height from 64 to 128 and leaves the width at 2048 — the height is not fixed at
`sdfGlyphSize`, and it is not the width that doubles. -/
theorem spec_C6_counterexample :
    (writeSlot 1 64 (initTexImage 2048 64) 128 (fun _ => 0)).height = 128 ∧
    (writeSlot 1 64 (initTexImage 2048 64) 128 (fun _ => 0)).width = 2048 ∧
    (initTexImage 2048 64).height = 64 ∧ (initTexImage 2048 64).width = 2048 := by
  refine ⟨?_, ?_, rfl, rfl⟩
  · decide
  · decide
